import Mathlib

/-!
Verification development for the Bedrock-Utility repository core:
the request-deduplication / response-caching layer (`src/utils/caching.ts`,
`src/services/geminiService.ts`) and the packaging pipeline
(`src/utils/fileConverter.ts`).

The TypeScript sources are shallowly embedded below:
pure functions become Lean functions, raw byte buffers become `List Nat`
(each element a byte value), JS exceptions become `Except`, the browser
session storage becomes an explicit association list threaded through the
functions, and external collaborators (the generative-AI HTTP call, the
JSZip codec, `JSON.parse`/`JSON.stringify`) become function parameters.
-/

/-! ## KeyDeriver: SHA-256 (`crypto.subtle.digest('SHA-256', …)`)

`src/utils/caching.ts` delegates hashing to the Web Crypto API; the claims
are about the key deriver being the lowercase-hex SHA-256 of the
concatenated parts, so the digest itself is modelled bit-faithfully here.
All 32-bit words are `Nat` values kept below `2^32` by explicit reduction. -/

/-- Truncate to a 32-bit word. -/
def w32 (n : Nat) : Nat := n % 4294967296

/-- 32-bit modular addition. -/
def wadd (a b : Nat) : Nat := w32 (a + b)

/-- Rotate a 32-bit word right by `k` bits. -/
def rotr (k n : Nat) : Nat := w32 ((n >>> k) ||| (n <<< (32 - k)))

/-- SHA-256 big sigma 0. -/
def bsig0 (x : Nat) : Nat := rotr 2 x ^^^ rotr 13 x ^^^ rotr 22 x

/-- SHA-256 big sigma 1. -/
def bsig1 (x : Nat) : Nat := rotr 6 x ^^^ rotr 11 x ^^^ rotr 25 x

/-- SHA-256 small sigma 0. -/
def ssig0 (x : Nat) : Nat := rotr 7 x ^^^ rotr 18 x ^^^ (x >>> 3)

/-- SHA-256 small sigma 1. -/
def ssig1 (x : Nat) : Nat := rotr 17 x ^^^ rotr 19 x ^^^ (x >>> 10)

/-- SHA-256 choose function; xor with `2^32 - 1` is 32-bit complement. -/
def chF (e f g : Nat) : Nat := (e &&& f) ^^^ ((e ^^^ 4294967295) &&& g)

/-- SHA-256 majority function. -/
def majF (a b c : Nat) : Nat := (a &&& b) ^^^ (a &&& c) ^^^ (b &&& c)

/-- The 64 SHA-256 round constants. -/
def sha256K : List Nat :=
  [1116352408, 1899447441, 3049323471, 3921009573, 961987163, 1508970993,
   2453635748, 2870763221, 3624381080, 310598401, 607225278, 1426881987,
   1925078388, 2162078206, 2614888103, 3248222580, 3835390401, 4022224774,
   264347078, 604807628, 770255983, 1249150122, 1555081692, 1996064986,
   2554220882, 2821834349, 2952996808, 3210313671, 3336571891, 3584528711,
   113926993, 338241895, 666307205, 773529912, 1294757372, 1396182291,
   1695183700, 1986661051, 2177026350, 2456956037, 2730485921, 2820302411,
   3259730800, 3345764771, 3516065817, 3600352804, 4094571909, 275423344,
   430227734, 506948616, 659060556, 883997877, 958139571, 1322822218,
   1537002063, 1747873779, 1955562222, 2024104815, 2227730452, 2361852424,
   2428436474, 2756734187, 3204031479, 3329325298]

/-- The SHA-256 initial state. -/
def sha256H0 : List Nat :=
  [1779033703, 3144134277, 1013904242, 2773480762, 1359893119,
   2600822924, 528734635, 1541459225]

/-- Group bytes four at a time into big-endian 32-bit words. -/
def bytesToWords : List Nat → List Nat
  | a :: b :: c :: d :: rest => (((a * 256 + b) * 256 + c) * 256 + d) :: bytesToWords rest
  | _ => []

/-- Split a byte list into 64-byte blocks (fuel-indexed for structural
recursion; the fuel is always at least the number of blocks). -/
def chunk64 : Nat → List Nat → List (List Nat)
  | 0, _ => []
  | _, [] => []
  | fuel + 1, l => l.take 64 :: chunk64 fuel (l.drop 64)

/-- The eight big-endian bytes of the 64-bit message bit length. -/
def lenBytes (bitLen : Nat) : List Nat :=
  [(bitLen >>> 56) % 256, (bitLen >>> 48) % 256, (bitLen >>> 40) % 256, (bitLen >>> 32) % 256,
   (bitLen >>> 24) % 256, (bitLen >>> 16) % 256, (bitLen >>> 8) % 256, bitLen % 256]

/-- SHA-256 padding: a `0x80` byte, zeros to 56 mod 64, then the bit length. -/
def padBytes (msg : List Nat) : List Nat :=
  msg ++ [128] ++ List.replicate ((119 - msg.length % 64) % 64) 0 ++ lenBytes (msg.length * 8)

/-- One step of the message-schedule extension; the accumulator holds the
schedule so far in reverse (newest word first). -/
def scheduleStep (w : List Nat) : List Nat :=
  wadd (wadd (ssig1 (w.getD 1 0)) (w.getD 6 0)) (wadd (ssig0 (w.getD 14 0)) (w.getD 15 0)) :: w

/-- Extend 16 words to the full 64-entry message schedule. -/
def schedule (w16 : List Nat) : List Nat :=
  ((List.range 48).foldl (fun w _ => scheduleStep w) w16.reverse).reverse

/-- One SHA-256 compression round on the 8-word working state. -/
def compressStep (st : List Nat) (kw : Nat × Nat) : List Nat :=
  match st with
  | [a, b, c, d, e, f, g, h] =>
    let t1 := wadd h (wadd (bsig1 e) (wadd (chF e f g) (wadd kw.1 kw.2)))
    let t2 := wadd (bsig0 a) (majF a b c)
    [wadd t1 t2, a, b, c, wadd d t1, e, f, g]
  | _ => st

/-- Process one 64-byte block into the running hash state. -/
def processBlock (h : List Nat) (block : List Nat) : List Nat :=
  let st := (sha256K.zip (schedule (bytesToWords block))).foldl compressStep h
  List.zipWith wadd h st

/-- The SHA-256 digest of a byte list, as eight 32-bit words. -/
def sha256Words (msg : List Nat) : List Nat :=
  let padded := padBytes msg
  (chunk64 padded.length padded).foldl processBlock sha256H0

/-- The four big-endian bytes of a 32-bit word. -/
def wordBytes (w : Nat) : List Nat :=
  [(w >>> 24) % 256, (w >>> 16) % 256, (w >>> 8) % 256, w % 256]

/-- ASCII code of the lowercase hex digit for `n < 16`
(mirrors `b.toString(16)` which renders lowercase). -/
def hexDigitCode (n : Nat) : Nat := if n < 10 then 48 + n else 87 + n

/-- The two lowercase hex character codes of a byte
(`b.toString(16).padStart(2, '0')`). -/
def byteHexCodes (b : Nat) : List Nat := [hexDigitCode (b / 16), hexDigitCode (b % 16)]

/-- Lowercase hex rendering of the SHA-256 digest of a byte list
(`hashArray.map(b => b.toString(16).padStart(2, '0')).join('')`). -/
def sha256hex (msg : List Nat) : String :=
  String.mk ((((sha256Words msg).flatMap wordBytes).flatMap byteHexCodes).map Char.ofNat)

/-- UTF-8 encoding of a unicode scalar value (`TextEncoder.encode`). -/
def utf8EncodeCharNat (c : Nat) : List Nat :=
  if c < 128 then [c]
  else if c < 2048 then [192 + c / 64, 128 + c % 64]
  else if c < 65536 then [224 + c / 4096, 128 + (c / 64) % 64, 128 + c % 64]
  else [240 + c / 262144, 128 + (c / 4096) % 64, 128 + (c / 64) % 64, 128 + c % 64]

/-- The UTF-8 bytes of a string (`new TextEncoder().encode(part)`). -/
def utf8Bytes (s : String) : List Nat := s.data.flatMap (fun c => utf8EncodeCharNat c.toNat)

/-- One element of the `parts` argument of `generateCacheKey`:
a JS `string` or an `ArrayBuffer` (bytes). -/
inductive CPart where
  | str (s : String)
  | buf (b : List Nat)
deriving DecidableEq

/-- The bytes contributed by one part. -/
def cpartBytes : CPart → List Nat
  | .str s => utf8Bytes s
  | .buf b => b

/-- The `combined` buffer of `generateCacheKey` in `src/utils/caching.ts`:
the loop copies each part's bytes at increasing offsets, i.e. concatenates
them in order. -/
def combinedBytes (parts : List CPart) : List Nat :=
  parts.foldl (fun acc part => acc ++ cpartBytes part) []

/-- `generateCacheKey` (src/utils/caching.ts, lines 4-25): the lowercase-hex
SHA-256 digest of the in-order concatenation of the parts' bytes. -/
def generateCacheKey (parts : List CPart) : String :=
  sha256hex (combinedBytes parts)

-- SHA-256 test vectors (sanity anchors for the digest model).
example : sha256hex [] =
    "e3b0c44298fc1c149afbf4c8996fb92427ae41e4649b934ca495991b7852b855" := by decide
example : sha256hex (utf8Bytes "abc") =
    "ba7816bf8f01cfea414140de5dae2223b00361a396177a9cb410ff61f20015ad" := by decide

/-! ## ResponseCache (`src/utils/caching.ts`, lines 30-52)

`sessionStorage` is modelled as an association list of string keys and
string values. The JS functions wrap their bodies in `try/catch`; each is
embedded as a fallible *body* (`Except`) plus the exported total function
that applies the catch block. `JSON.parse` / `JSON.stringify` and the
storage accessors are external collaborators, passed as fallible
functions. -/

/-- The session-storage contents: insertion-ordered key/value pairs. -/
abbrev Store := List (String × String)

/-- Key lookup in the modelled session storage. -/
def storeLookup : Store → String → Option String
  | [], _ => none
  | (k, v) :: rest, key => if k == key then some v else storeLookup rest key

/-- Write-or-overwrite in the modelled session storage. -/
def storeInsert : Store → String → String → Store
  | [], key, val => [(key, val)]
  | (k, v) :: rest, key, val =>
    if k == key then (key, val) :: rest else (k, v) :: storeInsert rest key val

/-- The `try` body of `getFromCache`: `sessionStorage.getItem`, the falsy
check `if (!item) return null` (null or empty string), then `JSON.parse`.
Any step may throw (`Except.error`). -/
def getFromCacheBody {T : Type} (getItem : String → Except Unit (Option String))
    (parseJson : String → Except Unit T) (key : String) : Except Unit (Option T) :=
  match getItem key with
  | .error e => .error e
  | .ok none => .ok none
  | .ok (some item) =>
    if item = "" then .ok none
    else
      match parseJson item with
      | .error e => .error e
      | .ok v => .ok (some v)

/-- `getFromCache` (src/utils/caching.ts, lines 30-39): the body with its
`catch` block, which logs and returns `null`. -/
def getFromCache {T : Type} (getItem : String → Except Unit (Option String))
    (parseJson : String → Except Unit T) (key : String) : Option T :=
  match getFromCacheBody getItem parseJson key with
  | .ok r => r
  | .error _ => none

/-- The `try` body of `setInCache`: `JSON.stringify` then
`sessionStorage.setItem`, returning the updated storage; either may throw. -/
def setInCacheBody {T σ : Type} (stringify : T → Except Unit String)
    (setItem : String → String → Except Unit σ) (key : String) (data : T) : Except Unit σ :=
  match stringify data with
  | .error e => .error e
  | .ok item => setItem key item

/-- `setInCache` (src/utils/caching.ts, lines 44-52): the body with its
`catch` block, which logs and leaves the storage as it was (`current`). -/
def setInCache {T σ : Type} (current : σ) (stringify : T → Except Unit String)
    (setItem : String → String → Except Unit σ) (key : String) (data : T) : σ :=
  match setInCacheBody stringify setItem key data with
  | .ok s => s
  | .error _ => current

/-! ## GenerationGateway (`src/services/geminiService.ts`, `generateAddonFiles`)

The external generative-AI collaborator (`performSingleGeneration` =
`ai.models.generateContent` + `parseJsonResponse`) is modelled as a
fallible oracle indexed by the call number, so the two passes may answer
differently. The gateway returns its result together with the updated
storage and the ordered trace of collaborator calls it issued.
Temperatures are exact multiples of 0.1 and are recorded in tenths
(1 = 0.1 for the first pass, 0 = 0.0 for the verification pass). -/

/-- `GeneratedFile` (src/types.ts). -/
structure GeneratedFile where
  path : String
  content : String
deriving DecidableEq

/-- `AssetMapping` (src/types.ts): a relocation instruction. -/
structure AssetMapping where
  originalPath : String
  newPath : String
deriving DecidableEq

/-- One content part sent to the collaborator: `{ text }` or
`{ inlineData: { mimeType, data } }`. -/
inductive GPart where
  | text (s : String)
  | inlineData (mimeType : String) (data : String)
deriving DecidableEq

/-- `p.text || p.inlineData.mimeType` (src/services/geminiService.ts,
line 255); the parts built by the converters carry nonempty text, so the
JS falsy fallback only ever selects the mime type of inline parts. -/
def partIdText : GPart → String
  | .text s => s
  | .inlineData mimeType _ => mimeType

/-- The cache-key fingerprint of the parts: `….join('|')`. -/
def partIdentifier (parts : List GPart) : String :=
  String.intercalate "|" (parts.map partIdText)

/-- A parsed structured generation result; `files` is optional because the
code guards `!result.files` before using it. -/
structure GenResult where
  files : Option (List GeneratedFile)
  assetMappings : Option (List AssetMapping)
  summaryReport : Option String
deriving DecidableEq

/-- One collaborator invocation (`performSingleGeneration` arguments). -/
structure GenCall where
  systemInstruction : String
  prompt : String
  parts : List GPart
  temperatureTenths : Nat
deriving DecidableEq

/-- External collaborators of the gateway: JSON codec, session storage
accessors, and the generation oracle (indexed by call number). -/
structure GatewayEnv where
  stringify : GenResult → Except Unit String
  parseJson : String → Except Unit GenResult
  getItem : Store → String → Except Unit (Option String)
  setItem : Store → String → String → Except Unit Store
  gen : Nat → GenCall → Except String GenResult

/-- The text part built from one generated file for the verification pass. -/
def filePartText (f : GeneratedFile) : String :=
  "File path: " ++ f.path ++ "\n\n---\n\n" ++ f.content

/-- The first-pass empty-result error message (line 270). -/
def initialEmptyMsg : String :=
  "The AI did not generate any files in the initial step. Your request might be too vague, unsupported, or against the safety policy. Please provide more specific details and try again."

/-- The verification-pass empty-result error message (line 340). -/
def verifEmptyMsg : String :=
  "The AI failed to return any files during the verification step. This is an unexpected error. The initial files have been preserved. Please try again."

/-- The fixed validate-and-correct system instruction of the verification
pass (lines 276-323); only its leading sentence is reproduced — the
gateway control flow never inspects this text. -/
def verificationSystemInstructionText : String :=
  "You are the infallible core of a \"self-correcting IDE\" for Minecraft Bedrock addons. Your function is to act as the final Quality Assurance and validation engine."

/-- The verification-pass user prompt (line 325). -/
def verificationPromptText (prompt : String) : String :=
  "The original user request was: \"" ++ prompt ++ "\". Please verify and correct the following addon files to perfectly match the request and ensure they are 100% bug-free and production-ready."

/-- The cache key derived before generation (line 256):
`generateCacheKey([systemInstruction, prompt, partIdentifier])`. -/
def gatewayKey (systemInstruction prompt : String) (parts : List GPart) : String :=
  generateCacheKey [.str systemInstruction, .str prompt, .str (partIdentifier parts)]

/-- The first-pass collaborator call (line 267, temperature 0.1). -/
def initialCall (systemInstruction prompt : String) (parts : List GPart) : GenCall :=
  ⟨systemInstruction, prompt, parts, 1⟩

/-- The verification collaborator call (line 331, temperature 0.0), taking
the first-pass files as its new input context. -/
def verifCall (prompt : String) (fs : List GeneratedFile) : GenCall :=
  ⟨verificationSystemInstructionText, verificationPromptText prompt,
   fs.map (fun f => GPart.text (filePartText f)), 0⟩

/-- Lines 334-335: the final result keeps the verification pass's files but
carries over `assetMappings` and `summaryReport` from the first pass. -/
def mkFinal (initialResult verifResult : GenResult) : GenResult :=
  { verifResult with
      assetMappings := initialResult.assetMappings,
      summaryReport := initialResult.summaryReport }

/-- The guard `!result.files || result.files.length === 0`. -/
def emptyFiles (r : GenResult) : Bool :=
  match r.files with
  | none => true
  | some fs => fs.isEmpty

/-- `generateAddonFiles` (src/services/geminiService.ts, lines 250-348):
cache lookup, first generation pass, emptiness guard, verification pass at
temperature 0, field carry-over, second emptiness guard, cache store.
Returns (result, updated storage, ordered collaborator-call trace). -/
def generateAddonFiles (env : GatewayEnv) (systemInstruction prompt : String)
    (parts : List GPart) (store : Store) :
    Except String GenResult × Store × List GenCall :=
  let cacheKey := gatewayKey systemInstruction prompt parts
  match getFromCache (env.getItem store) env.parseJson cacheKey with
  | some cachedData => (.ok cachedData, store, [])
  | none =>
    let call0 := initialCall systemInstruction prompt parts
    match env.gen 0 call0 with
    | .error e => (.error e, store, [call0])
    | .ok initialResult =>
      if emptyFiles initialResult then (.error initialEmptyMsg, store, [call0])
      else
        let call1 := verifCall prompt (initialResult.files.getD [])
        match env.gen 1 call1 with
        | .error e => (.error e, store, [call0, call1])
        | .ok verifResult =>
          let finalResult := mkFinal initialResult verifResult
          if emptyFiles finalResult then (.error verifEmptyMsg, store, [call0, call1])
          else
            (.ok finalResult,
             setInCache store env.stringify (env.setItem store) cacheKey finalResult,
             [call0, call1])

/-! ## Claims about the cache accessors and the gateway -/

/-- **C5** — For every key and every state of the underlying session
storage, `getFromCache` never throws: it returns `none` when the key is
unseen, when the stored value is not deserializable, and when storage
access fails; and `setInCache` never throws: when serialization or the
storage write fails, the failure is swallowed and the storage is left as
it was. -/
theorem cache_accessors_degrade_never_throw {T : Type}
    (getItem : String → Except Unit (Option String)) (parseJson : String → Except Unit T)
    (stringify : T → Except Unit String) (setItem : String → String → Except Unit Store)
    (current : Store) (key s : String) (v : T) :
    (getItem key = .ok none → getFromCache getItem parseJson key = (none : Option T))
    ∧ (getItem key = .error () → getFromCache getItem parseJson key = (none : Option T))
    ∧ (getItem key = .ok (some s) → parseJson s = .error () →
        getFromCache getItem parseJson key = (none : Option T))
    ∧ (stringify v = .error () → setInCache current stringify setItem key v = current)
    ∧ (stringify v = .ok s → setItem key s = .error () →
        setInCache current stringify setItem key v = current) := by
  refine ⟨?_, ?_, ?_, ?_, ?_⟩
  · intro h; simp only [getFromCache, getFromCacheBody, h]
  · intro h; simp only [getFromCache, getFromCacheBody, h]
  · intro h hp
    by_cases hs : s = ""
    · subst hs; simp [getFromCache, getFromCacheBody, h]
    · simp only [getFromCache, getFromCacheBody, h, if_neg hs, hp]
  · intro h; simp only [setInCache, setInCacheBody, h]
  · intro h hs; simp only [setInCache, setInCacheBody, h, hs]

/-- Witness for C5 at concrete storage states and codecs. -/
theorem cache_accessors_degrade_never_throw_witness :
    getFromCache (T := Nat) (fun _ => .ok none) (fun _ => .error ()) "k" = none
    ∧ getFromCache (T := Nat) (fun _ => .error ()) (fun _ => .ok 7) "k" = none
    ∧ getFromCache (T := Nat) (fun _ => .ok (some "garbage")) (fun _ => .error ()) "k" = none
    ∧ setInCache [("a", "b")] (fun _ => .error ()) (fun _ _ => .ok []) "k" (5 : Nat) = [("a", "b")]
    ∧ setInCache [("a", "b")] (fun _ => .ok "5") (fun _ _ => .error ()) "k" (5 : Nat)
        = [("a", "b")] := by
  refine ⟨?_, ?_, ?_, ?_, ?_⟩
  · exact (cache_accessors_degrade_never_throw _ _ (fun _ => .ok "") (fun _ _ => .ok [])
      [] "k" "" 0).1 rfl
  · exact (cache_accessors_degrade_never_throw _ _ (fun _ => .ok "") (fun _ _ => .ok [])
      [] "k" "" 0).2.1 rfl
  · exact (cache_accessors_degrade_never_throw _ _ (fun _ => .ok "") (fun _ _ => .ok [])
      [] "k" "garbage" 0).2.2.1 rfl rfl
  · exact (cache_accessors_degrade_never_throw (fun _ => .ok none) (fun _ => .ok 0) _ _
      [("a", "b")] "k" "" 5).2.2.2.1 rfl
  · exact (cache_accessors_degrade_never_throw (fun _ => .ok none) (fun _ => .ok 0) _ _
      [("a", "b")] "k" "5" 5).2.2.2.2 rfl rfl

/-- **C1** — A cache hit under the pre-derived key returns the stored value
with zero collaborator calls and an unchanged storage; a successful
cache-miss invocation stores the final post-verification result under that
same key (derived before generation), so that a later byte-identical
request answers from the cache with zero collaborator calls. -/
theorem gateway_cache_hit_skips_and_miss_populates
    (env : GatewayEnv) (systemInstruction prompt : String) (parts : List GPart) (store : Store) :
    (∀ v, getFromCache (env.getItem store) env.parseJson
          (gatewayKey systemInstruction prompt parts) = some v →
        generateAddonFiles env systemInstruction prompt parts store = (.ok v, store, []))
    ∧ (getFromCache (env.getItem store) env.parseJson
          (gatewayKey systemInstruction prompt parts) = none →
       ∀ r1 r2 s store',
         env.gen 0 (initialCall systemInstruction prompt parts) = .ok r1 →
         emptyFiles r1 = false →
         env.gen 1 (verifCall prompt (r1.files.getD [])) = .ok r2 →
         emptyFiles (mkFinal r1 r2) = false →
         env.stringify (mkFinal r1 r2) = .ok s →
         env.setItem store (gatewayKey systemInstruction prompt parts) s = .ok store' →
         generateAddonFiles env systemInstruction prompt parts store
           = (.ok (mkFinal r1 r2), store',
              [initialCall systemInstruction prompt parts,
               verifCall prompt (r1.files.getD [])])
         ∧ (env.getItem store' (gatewayKey systemInstruction prompt parts) = .ok (some s) →
            s ≠ "" →
            env.parseJson s = .ok (mkFinal r1 r2) →
            generateAddonFiles env systemInstruction prompt parts store'
              = (.ok (mkFinal r1 r2), store', []))) := by
  constructor
  · intro v h
    simp only [generateAddonFiles, h]
  · intro hmiss r1 r2 s store' h0 he1 h1 he2 hser hset
    constructor
    · simp only [generateAddonFiles, hmiss, h0, he1, h1, he2, setInCache, setInCacheBody,
        hser, hset, Bool.false_eq_true, if_false]
    · intro hget hne hparse
      have hfc : getFromCache (env.getItem store') env.parseJson
          (gatewayKey systemInstruction prompt parts) = some (mkFinal r1 r2) := by
        simp only [getFromCache, getFromCacheBody, hget, hparse, if_neg hne]
      simp only [generateAddonFiles, hfc]

/-- Concrete first-pass result used in gateway witnesses. -/
def wR1 : GenResult :=
  ⟨some [⟨"a.json", "A"⟩], some [⟨"x.png", "rp/x.png"⟩], some "report"⟩

/-- Concrete verification-pass result used in gateway witnesses. -/
def wR2 : GenResult := ⟨some [⟨"a.json", "B"⟩], none, none⟩

/-- Concrete collaborator environment used in gateway witnesses. -/
def wEnv : GatewayEnv where
  stringify := fun _ => .ok "ser"
  parseJson := fun s => if s = "ser" then .ok (mkFinal wR1 wR2) else .error ()
  getItem := fun st k => .ok (storeLookup st k)
  setItem := fun st k v => .ok (storeInsert st k v)
  gen := fun i _ => if i = 0 then .ok wR1 else .ok wR2

/-- Witness for C1: a miss populates the store, then the identical request
hits the cache with an empty call trace. -/
theorem gateway_cache_hit_skips_and_miss_populates_witness :
    generateAddonFiles wEnv "sys" "usr" [] []
      = (.ok (mkFinal wR1 wR2), storeInsert [] (gatewayKey "sys" "usr" []) "ser",
         [initialCall "sys" "usr" [], verifCall "usr" [⟨"a.json", "A"⟩]])
    ∧ generateAddonFiles wEnv "sys" "usr" [] (storeInsert [] (gatewayKey "sys" "usr" []) "ser")
      = (.ok (mkFinal wR1 wR2), storeInsert [] (gatewayKey "sys" "usr" []) "ser", []) := by
  have h := (gateway_cache_hit_skips_and_miss_populates wEnv "sys" "usr" [] []).2
    rfl wR1 wR2 "ser" (storeInsert [] (gatewayKey "sys" "usr" []) "ser")
    rfl rfl rfl rfl rfl rfl
  refine ⟨h.1, h.2 ?_ (by decide) rfl⟩
  show Except.ok (storeLookup (storeInsert [] (gatewayKey "sys" "usr" []) "ser")
    (gatewayKey "sys" "usr" [])) = Except.ok (some "ser")
  rw [show storeInsert [] (gatewayKey "sys" "usr" []) "ser"
    = [(gatewayKey "sys" "usr" [], "ser")] from rfl]
  simp [storeLookup]

/-- **C2** — On a cache miss: a nonempty first pass is always followed by
the verification call at temperature 0 before the gateway returns; an
empty first pass fails with the first-pass error and no second call; an
empty verification pass fails with a distinct hard error after both
calls. -/
theorem gateway_two_pass_discipline
    (env : GatewayEnv) (systemInstruction prompt : String) (parts : List GPart) (store : Store)
    (hmiss : getFromCache (env.getItem store) env.parseJson
        (gatewayKey systemInstruction prompt parts) = none) :
    (∀ r1, env.gen 0 (initialCall systemInstruction prompt parts) = .ok r1 →
        emptyFiles r1 = false →
        (generateAddonFiles env systemInstruction prompt parts store).2.2
          = [initialCall systemInstruction prompt parts, verifCall prompt (r1.files.getD [])]
        ∧ (verifCall prompt (r1.files.getD [])).temperatureTenths = 0)
    ∧ (∀ r1, env.gen 0 (initialCall systemInstruction prompt parts) = .ok r1 →
        emptyFiles r1 = true →
        generateAddonFiles env systemInstruction prompt parts store
          = (.error initialEmptyMsg, store, [initialCall systemInstruction prompt parts]))
    ∧ (∀ r1 r2, env.gen 0 (initialCall systemInstruction prompt parts) = .ok r1 →
        emptyFiles r1 = false →
        env.gen 1 (verifCall prompt (r1.files.getD [])) = .ok r2 →
        emptyFiles (mkFinal r1 r2) = true →
        generateAddonFiles env systemInstruction prompt parts store
          = (.error verifEmptyMsg, store,
             [initialCall systemInstruction prompt parts,
              verifCall prompt (r1.files.getD [])]))
    ∧ verifEmptyMsg ≠ initialEmptyMsg := by
  refine ⟨?_, ?_, ?_, by decide⟩
  · intro r1 h0 he1
    refine ⟨?_, rfl⟩
    simp only [generateAddonFiles, hmiss, h0, he1, Bool.false_eq_true, if_false]
    split
    · rfl
    · split <;> rfl
  · intro r1 h0 he1
    simp only [generateAddonFiles, hmiss, h0, he1, if_true]
  · intro r1 r2 h0 he1 h1 he2
    simp only [generateAddonFiles, hmiss, h0, he1, h1, he2, Bool.false_eq_true, if_false,
      if_true]

/-- Concrete collaborator environment whose first pass yields zero files. -/
def wEnvEmpty : GatewayEnv where
  stringify := fun _ => .ok "ser"
  parseJson := fun _ => .error ()
  getItem := fun st k => .ok (storeLookup st k)
  setItem := fun st k v => .ok (storeInsert st k v)
  gen := fun _ _ => .ok ⟨some [], none, none⟩

/-- Witness for C2: a nonempty first pass issues the temperature-0
verification call; an empty first pass stops after one call. -/
theorem gateway_two_pass_discipline_witness :
    ((generateAddonFiles wEnv "sys" "usr" [] []).2.2
      = [initialCall "sys" "usr" [], verifCall "usr" [⟨"a.json", "A"⟩]]
      ∧ (verifCall "usr" [⟨"a.json", "A"⟩]).temperatureTenths = 0)
    ∧ generateAddonFiles wEnvEmpty "sys" "usr" [] []
      = (.error initialEmptyMsg, [], [initialCall "sys" "usr" []]) := by
  constructor
  · exact (gateway_two_pass_discipline wEnv "sys" "usr" [] [] rfl).1 wR1 rfl rfl
  · exact (gateway_two_pass_discipline wEnvEmpty "sys" "usr" [] [] rfl).2.1
      ⟨some [], none, none⟩ rfl rfl

/-- **C3** — On a successful cache-miss invocation, the returned final
result takes `assetMappings` and `summaryReport` exactly from the
first-pass result (the verification pass's values for those fields are
discarded) and takes only `files` from the verification pass. -/
theorem gateway_verification_field_carryover
    (env : GatewayEnv) (systemInstruction prompt : String) (parts : List GPart) (store : Store)
    (hmiss : getFromCache (env.getItem store) env.parseJson
        (gatewayKey systemInstruction prompt parts) = none)
    (r1 r2 : GenResult)
    (h0 : env.gen 0 (initialCall systemInstruction prompt parts) = .ok r1)
    (he1 : emptyFiles r1 = false)
    (h1 : env.gen 1 (verifCall prompt (r1.files.getD [])) = .ok r2)
    (he2 : emptyFiles (mkFinal r1 r2) = false) :
    (generateAddonFiles env systemInstruction prompt parts store).1 = .ok (mkFinal r1 r2)
    ∧ (mkFinal r1 r2).assetMappings = r1.assetMappings
    ∧ (mkFinal r1 r2).summaryReport = r1.summaryReport
    ∧ (mkFinal r1 r2).files = r2.files := by
  refine ⟨?_, rfl, rfl, rfl⟩
  simp only [generateAddonFiles, hmiss, h0, he1, h1, he2, Bool.false_eq_true, if_false]

/-- Witness for C3: the verification pass's (absent) mappings and report
are discarded in favour of the first pass's. -/
theorem gateway_verification_field_carryover_witness :
    (generateAddonFiles wEnv "sys" "usr" [] []).1
      = .ok ⟨some [⟨"a.json", "B"⟩], some [⟨"x.png", "rp/x.png"⟩], some "report"⟩
    ∧ wR2.assetMappings = none ∧ wR2.summaryReport = none := by
  refine ⟨?_, rfl, rfl⟩
  exact (gateway_verification_field_carryover wEnv "sys" "usr" [] [] rfl wR1 wR2
    rfl rfl rfl rfl).1

/-! ## Claim C4: the key deriver

Auxiliary facts: the digest words stay below `2^32`, the digest has eight
words, and the byte/hex renderings are injective on bounded inputs, so two
derived keys coincide exactly when the underlying SHA-256 digests do. -/

/-- Elements produced by `zipWith wadd` are 32-bit words. -/
theorem lt_of_mem_zipWith_wadd : ∀ {a b : List Nat} {x : Nat},
    x ∈ List.zipWith wadd a b → x < 4294967296 := by
  intro a
  induction a with
  | nil => intro b x h; simp at h
  | cons e a ih =>
    intro b x h
    cases b with
    | nil => simp at h
    | cons f b =>
      rcases List.mem_cons.mp h with h | h
      · subst h; exact Nat.mod_lt _ (by omega)
      · exact ih h

/-- Folding blocks keeps every state word below `2^32` (or the initial
bound, when there are no blocks). -/
theorem foldl_processBlock_lt (blocks : List (List Nat)) (init : List Nat)
    (h : ∀ w ∈ init, w < 4294967296) :
    ∀ w ∈ blocks.foldl processBlock init, w < 4294967296 := by
  induction blocks generalizing init with
  | nil => exact h
  | cons b bs ih =>
    refine ih _ ?_
    intro w hw
    simp only [processBlock] at hw
    exact lt_of_mem_zipWith_wadd hw

/-- Every SHA-256 digest word is below `2^32`. -/
theorem sha256Words_lt (m : List Nat) : ∀ w ∈ sha256Words m, w < 4294967296 :=
  foldl_processBlock_lt _ _ (by decide)

/-- A compression round preserves the state length. -/
theorem length_compressStep (st : List Nat) (kw : Nat × Nat) :
    (compressStep st kw).length = st.length := by
  unfold compressStep
  split <;> rfl

/-- The compression fold preserves the state length. -/
theorem length_foldl_compressStep (l : List (Nat × Nat)) (st : List Nat) :
    (l.foldl compressStep st).length = st.length := by
  induction l generalizing st with
  | nil => rfl
  | cons kw l ih => rw [List.foldl_cons, ih, length_compressStep]

/-- Processing a block preserves the state length. -/
theorem length_processBlock (h : List Nat) (b : List Nat) :
    (processBlock h b).length = h.length := by
  simp only [processBlock]
  rw [List.length_zipWith, length_foldl_compressStep, Nat.min_self]

/-- The block fold preserves the state length. -/
theorem length_foldl_processBlock (blocks : List (List Nat)) (init : List Nat) :
    (blocks.foldl processBlock init).length = init.length := by
  induction blocks generalizing init with
  | nil => rfl
  | cons b bs ih => rw [List.foldl_cons, ih, length_processBlock]

/-- A SHA-256 digest always has eight words. -/
theorem length_sha256Words (m : List Nat) : (sha256Words m).length = 8 :=
  length_foldl_processBlock _ _

/-- Word bytes are bytes. -/
theorem wordBytes_lt {w c : Nat} (hc : c ∈ wordBytes w) : c < 256 := by
  simp only [wordBytes, List.mem_cons, List.not_mem_nil, or_false] at hc
  rcases hc with h | h | h | h <;> subst h <;> exact Nat.mod_lt _ (by omega)

/-- Hex digit codes of values below 16 are ASCII (below 128). -/
theorem hexDigitCode_lt {n : Nat} (h : n < 16) : hexDigitCode n < 128 := by
  unfold hexDigitCode; split <;> omega

/-- The hex digit rendering is injective below 16. -/
theorem hexDigitCode_inj {a b : Nat} (ha : a < 16) (hb : b < 16)
    (h : hexDigitCode a = hexDigitCode b) : a = b := by
  unfold hexDigitCode at h
  split at h <;> split at h <;> omega

/-- Hex codes of a byte are ASCII codes. -/
theorem byteHexCodes_lt {b c : Nat} (hb : b < 256) (hc : c ∈ byteHexCodes b) : c < 128 := by
  simp only [byteHexCodes, List.mem_cons, List.not_mem_nil, or_false] at hc
  rcases hc with h | h <;> subst h <;> exact hexDigitCode_lt (by omega)

/-- The byte-to-hex rendering is injective on byte lists. -/
theorem flatMap_byteHexCodes_inj : ∀ {xs ys : List Nat},
    (∀ x ∈ xs, x < 256) → (∀ y ∈ ys, y < 256) →
    xs.flatMap byteHexCodes = ys.flatMap byteHexCodes → xs = ys := by
  intro xs
  induction xs with
  | nil =>
    intro ys _ _ h
    cases ys with
    | nil => rfl
    | cons y ys => simp [byteHexCodes] at h
  | cons x xs ih =>
    intro ys hx hy h
    cases ys with
    | nil => simp [byteHexCodes] at h
    | cons y ys =>
      simp only [List.flatMap_cons, byteHexCodes, List.cons_append, List.nil_append,
        List.cons.injEq] at h
      obtain ⟨h1, h2, h3⟩ := h
      have hxb := hx x (List.mem_cons_self x xs)
      have hyb := hy y (List.mem_cons_self y ys)
      have e1 := hexDigitCode_inj (by omega) (by omega) h1
      have e2 := hexDigitCode_inj (by omega) (by omega) h2
      have hxy : x = y := by omega
      subst hxy
      rw [ih (fun a ha => hx a (List.mem_cons_of_mem _ ha))
          (fun a ha => hy a (List.mem_cons_of_mem _ ha)) h3]

/-- The word-to-bytes rendering is injective on 32-bit word lists. -/
theorem flatMap_wordBytes_inj : ∀ {xs ys : List Nat},
    (∀ x ∈ xs, x < 4294967296) → (∀ y ∈ ys, y < 4294967296) →
    xs.flatMap wordBytes = ys.flatMap wordBytes → xs = ys := by
  intro xs
  induction xs with
  | nil =>
    intro ys _ _ h
    cases ys with
    | nil => rfl
    | cons y ys => simp [wordBytes] at h
  | cons x xs ih =>
    intro ys hx hy h
    cases ys with
    | nil => simp [wordBytes] at h
    | cons y ys =>
      simp only [List.flatMap_cons, wordBytes, List.cons_append, List.nil_append,
        List.cons.injEq, Nat.shiftRight_eq_div_pow] at h
      obtain ⟨h1, h2, h3, h4, h5⟩ := h
      have hxb := hx x (List.mem_cons_self x xs)
      have hyb := hy y (List.mem_cons_self y ys)
      have hxy : x = y := by
        norm_num at h1 h2 h3
        omega
      subst hxy
      rw [ih (fun a ha => hx a (List.mem_cons_of_mem _ ha))
          (fun a ha => hy a (List.mem_cons_of_mem _ ha)) h5]

/-- `Char.ofNat` round-trips on ASCII codes. -/
theorem char_toNat_ofNat_lt {n : Nat} (h : n < 55296) : (Char.ofNat n).toNat = n := by
  have hv : n.isValidChar := Or.inl h
  simp [Char.ofNat, hv, Char.ofNatAux, Char.toNat, UInt32.toNat, BitVec.toNat_ofNatLt]

/-- Mapping `Char.ofNat` over ASCII code lists is injective. -/
theorem map_charOfNat_inj : ∀ {xs ys : List Nat},
    (∀ x ∈ xs, x < 128) → (∀ y ∈ ys, y < 128) →
    xs.map Char.ofNat = ys.map Char.ofNat → xs = ys := by
  intro xs
  induction xs with
  | nil =>
    intro ys _ _ h
    cases ys with
    | nil => rfl
    | cons y ys => simp at h
  | cons x xs ih =>
    intro ys hx hy h
    cases ys with
    | nil => simp at h
    | cons y ys =>
      simp only [List.map_cons, List.cons.injEq] at h
      obtain ⟨h1, h2⟩ := h
      have hxb := hx x (List.mem_cons_self x xs)
      have hyb := hy y (List.mem_cons_self y ys)
      have hxy : x = y := by
        have := congrArg Char.toNat h1
        rwa [char_toNat_ofNat_lt (by omega), char_toNat_ofNat_lt (by omega)] at this
      subst hxy
      rw [ih (fun a ha => hx a (List.mem_cons_of_mem _ ha))
          (fun a ha => hy a (List.mem_cons_of_mem _ ha)) h2]

/-- Two hex digests coincide exactly when the underlying digests do. -/
theorem sha256hex_eq_iff (m1 m2 : List Nat) :
    sha256hex m1 = sha256hex m2 ↔ sha256Words m1 = sha256Words m2 := by
  constructor
  · intro h
    have hbytes1 : ∀ b ∈ (sha256Words m1).flatMap wordBytes, b < 256 := by
      intro b hb
      obtain ⟨w, _, hbw⟩ := List.mem_flatMap.mp hb
      exact wordBytes_lt hbw
    have hbytes2 : ∀ b ∈ (sha256Words m2).flatMap wordBytes, b < 256 := by
      intro b hb
      obtain ⟨w, _, hbw⟩ := List.mem_flatMap.mp hb
      exact wordBytes_lt hbw
    have hcodes1 : ∀ c ∈ ((sha256Words m1).flatMap wordBytes).flatMap byteHexCodes, c < 128 := by
      intro c hc
      obtain ⟨b, hb, hcb⟩ := List.mem_flatMap.mp hc
      exact byteHexCodes_lt (hbytes1 b hb) hcb
    have hcodes2 : ∀ c ∈ ((sha256Words m2).flatMap wordBytes).flatMap byteHexCodes, c < 128 := by
      intro c hc
      obtain ⟨b, hb, hcb⟩ := List.mem_flatMap.mp hc
      exact byteHexCodes_lt (hbytes2 b hb) hcb
    unfold sha256hex at h
    have hdata : (((sha256Words m1).flatMap wordBytes).flatMap byteHexCodes).map Char.ofNat
        = (((sha256Words m2).flatMap wordBytes).flatMap byteHexCodes).map Char.ofNat := by
      injection h
    have hhex := map_charOfNat_inj hcodes1 hcodes2 hdata
    have hby := flatMap_byteHexCodes_inj hbytes1 hbytes2 hhex
    exact flatMap_wordBytes_inj (sha256Words_lt m1) (sha256Words_lt m2) hby
  · intro h
    unfold sha256hex
    rw [h]

/-- `flatMap wordBytes` quadruples the length. -/
theorem length_flatMap_wordBytes (ws : List Nat) :
    (ws.flatMap wordBytes).length = 4 * ws.length := by
  induction ws with
  | nil => rfl
  | cons w ws ih =>
    simp only [List.flatMap_cons, List.length_append, ih, wordBytes]
    simp only [List.length_cons, List.length_nil]
    omega

/-- `flatMap byteHexCodes` doubles the length. -/
theorem length_flatMap_byteHexCodes (bs : List Nat) :
    (bs.flatMap byteHexCodes).length = 2 * bs.length := by
  induction bs with
  | nil => rfl
  | cons b bs ih =>
    simp only [List.flatMap_cons, List.length_append, ih, byteHexCodes]
    simp only [List.length_cons, List.length_nil]
    omega

/-- A character of a lowercase hex rendering: `0`-`9` or `a`-`f`. -/
def isLowerHexCode (c : Char) : Prop :=
  (48 ≤ c.toNat ∧ c.toNat ≤ 57) ∨ (97 ≤ c.toNat ∧ c.toNat ≤ 102)

/-- Every character of a hex digest is a lowercase hex digit. -/
theorem sha256hex_chars (m : List Nat) : ∀ c ∈ (sha256hex m).data, isLowerHexCode c := by
  intro c hc
  unfold sha256hex at hc
  obtain ⟨code, hcode, rfl⟩ := List.mem_map.mp hc
  obtain ⟨b, hb, hcb⟩ := List.mem_flatMap.mp hcode
  obtain ⟨w, _, hbw⟩ := List.mem_flatMap.mp hb
  have hblt : b < 256 := wordBytes_lt hbw
  have hdig : ∃ n, n < 16 ∧ code = hexDigitCode n := by
    simp only [byteHexCodes, List.mem_cons, List.not_mem_nil, or_false] at hcb
    rcases hcb with h | h
    · exact ⟨b / 16, by omega, h⟩
    · exact ⟨b % 16, by omega, h⟩
  obtain ⟨n, hn, rfl⟩ := hdig
  have hlt : hexDigitCode n < 128 := hexDigitCode_lt hn
  have htn := char_toNat_ofNat_lt (n := hexDigitCode n) (by omega)
  unfold isLowerHexCode
  rw [htn]
  unfold hexDigitCode
  split <;> omega

/-- **C4** — `generateCacheKey` is a pure function: it is exactly the
lowercase-hex SHA-256 digest of the in-order byte concatenation of its
parts; identical concatenations (in particular identical ordered parts,
and the accepted split-collision caveat) give identical keys; two keys
coincide exactly when the SHA-256 digests of the concatenations coincide,
so any byte difference that changes the digest changes the key; the key is
always 64 lowercase hex characters; and a concrete single-byte difference
changes the key. -/
theorem generateCacheKey_sha256_characterisation :
    (∀ p1 p2, combinedBytes p1 = combinedBytes p2 → generateCacheKey p1 = generateCacheKey p2)
    ∧ (∀ p, generateCacheKey p = sha256hex (combinedBytes p))
    ∧ (∀ p1 p2, generateCacheKey p1 = generateCacheKey p2 ↔
        sha256Words (combinedBytes p1) = sha256Words (combinedBytes p2))
    ∧ (∀ p, (generateCacheKey p).length = 64 ∧ ∀ c ∈ (generateCacheKey p).data, isLowerHexCode c)
    ∧ generateCacheKey [.str "a"] ≠ generateCacheKey [.str "b"]
    ∧ generateCacheKey [.str "ab"] = generateCacheKey [.str "a", .str "b"] := by
  refine ⟨?_, fun _ => rfl, ?_, ?_, by decide, by decide⟩
  · intro p1 p2 h
    unfold generateCacheKey
    rw [h]
  · intro p1 p2
    exact sha256hex_eq_iff _ _
  · intro p
    constructor
    · show (sha256hex (combinedBytes p)).length = 64
      unfold sha256hex
      show (List.map Char.ofNat _).length = 64
      rw [List.length_map, length_flatMap_byteHexCodes, length_flatMap_wordBytes,
        length_sha256Words]
    · exact sha256hex_chars _

/-- Witness for C4: the key depends only on the concatenated bytes —
a raw-buffer part with the UTF-8 bytes of `"a"` derives the same key as
the string part `"a"`. -/
theorem generateCacheKey_sha256_characterisation_witness :
    generateCacheKey [.buf [97]] = generateCacheKey [.str "a"]
    ∧ (generateCacheKey [.str "a"]).length = 64 := by
  constructor
  · exact generateCacheKey_sha256_characterisation.1 [.buf [97]] [.str "a"] (by decide)
  · exact (generateCacheKey_sha256_characterisation.2.2.2.1 [.str "a"]).1

/-! ## ArchiveAssembler / AssetResolver (`src/utils/fileConverter.ts`)

The JSZip codec is external: building an archive is modelled as a sequence
of path/content writes into an association list where a later write to an
existing path replaces the earlier entry (JSZip's `zip.file` semantics),
and opening an uploaded container is a fallible collaborator
`openZip : FileObj → Except Unit (List ZipEntry)` whose entry order models
`Object.values(zip.files)`. `File` objects carry a name and bytes. -/

/-- A JS `File`: a name and binary content. -/
structure FileObj where
  name : String
  bytes : List Nat
deriving DecidableEq

/-- `UploadedFile.type` (src/types.ts). -/
inductive UploadKind where
  | asset
  | addon_file
deriving DecidableEq

/-- `UploadedFile` (src/types.ts). -/
structure UploadedFile where
  file : FileObj
  type : UploadKind
deriving DecidableEq

/-- One entry of an opened container (`JSZipObject`): internal name,
directory flag, extracted bytes. -/
structure ZipEntry where
  name : String
  dir : Bool
  bytes : List Nat
deriving DecidableEq

/-- Content written into the output archive: generated text or asset
bytes. -/
inductive ZContent where
  | text (s : String)
  | bin (b : List Nat)
deriving DecidableEq

/-- JS `String.prototype.endsWith`: a raw character-sequence suffix test
with no path-boundary awareness. -/
def jsEndsWith (s suf : String) : Bool := suf.data.isSuffixOf s.data

/-- JS `String.prototype.toLowerCase`, modelled characterwise (the names
compared here are ASCII). -/
def jsToLower (s : String) : String := String.mk (s.data.map Char.toLower)

/-- The container test (line 70):
`name.toLowerCase()` ends with `.zip`, `.mcaddon` or `.mcpack`. -/
def isContainerName (name : String) : Bool :=
  let fileName := jsToLower name
  jsEndsWith fileName ".zip" || jsEndsWith fileName ".mcaddon" || jsEndsWith fileName ".mcpack"

/-- The console warnings the assembler records (the `console.warn` calls of
`downloadAddon`); `console.error` logging of unreadable zips is not
observable in the claims and is not recorded. -/
inductive Warning where
  | ambiguous (originalPath : String)
  | notFound (originalPath newPath : String)
deriving DecidableEq

/-- The fallback loop (lines 66-91): scan uploaded containers in order;
an unreadable container is caught, logged and skipped; the first opened
container holding a non-directory entry whose internal name ends with
`originalPath` supplies that entry's bytes. -/
def searchZips (openZip : FileObj → Except Unit (List ZipEntry)) :
    List UploadedFile → String → Option (List Nat)
  | [], _ => none
  | uf :: rest, originalPath =>
    if isContainerName uf.file.name then
      match openZip uf.file with
      | .error _ => searchZips openZip rest originalPath
      | .ok entries =>
        match entries.find? (fun e => !e.dir && jsEndsWith e.name originalPath) with
        | some e => some e.bytes
        | none => searchZips openZip rest originalPath
    else searchZips openZip rest originalPath

/-- Result of resolving one relocation instruction: the content to write
(if any) and whether the ambiguity warning fired. -/
structure ResolveOut where
  write : Option ZContent
  warnAmbiguous : Bool
deriving DecidableEq

/-- The per-mapping resolution of `downloadAddon` (lines 37-92):
filter loose inputs by name suffix; prefer an exact name match among them;
otherwise take the first, warning when several matched; with no loose
match, fall back to searching uploaded containers. -/
def resolveMapping (openZip : FileObj → Except Unit (List ZipEntry))
    (uploadedFiles : List UploadedFile) (m : AssetMapping) : ResolveOut :=
  let looseMatches := uploadedFiles.filter (fun uf => jsEndsWith uf.file.name m.originalPath)
  match looseMatches with
  | [] =>
    match searchZips openZip uploadedFiles m.originalPath with
    | some bs => ⟨some (.bin bs), false⟩
    | none => ⟨none, false⟩
  | first :: others =>
    match (first :: others).find? (fun uf => uf.file.name == m.originalPath) with
    | some exactMatch => ⟨some (.bin exactMatch.file.bytes), false⟩
    | none => ⟨some (.bin first.file.bytes), !others.isEmpty⟩

/-- `zip.file(path, content)`: write-or-replace at a path. -/
def zupsert (z : List (String × ZContent)) (path : String) (c : ZContent) :
    List (String × ZContent) :=
  match z with
  | [] => [(path, c)]
  | (p, v) :: rest => if p == path then (path, c) :: rest else (p, v) :: zupsert rest path c

/-- Read the archive entry at a path. -/
def lookupA (z : List (String × ZContent)) (path : String) : Option ZContent :=
  match z with
  | [] => none
  | (p, v) :: rest => if p == path then some v else lookupA rest path

/-- The output of `downloadAddon`: the assembled archive, the recorded
warnings, and the download filename. -/
structure AddonOut where
  archive : List (String × ZContent)
  warnings : List Warning
  filename : String
deriving DecidableEq

/-- One iteration of the `assetMappings` loop: resolve, warn on ambiguity,
write the found bytes at `newPath` or record a not-found warning. -/
def applyMapping (openZip : FileObj → Except Unit (List ZipEntry))
    (uploadedFiles : List UploadedFile)
    (acc : List (String × ZContent) × List Warning) (m : AssetMapping) :
    List (String × ZContent) × List Warning :=
  let r := resolveMapping openZip uploadedFiles m
  let ws := acc.2 ++ (if r.warnAmbiguous then [Warning.ambiguous m.originalPath] else [])
  match r.write with
  | some c => (zupsert acc.1 m.newPath c, ws)
  | none => (acc.1, ws ++ [Warning.notFound m.originalPath m.newPath])

/-- `downloadAddon` (src/utils/fileConverter.ts, lines 23-106): write every
generated file at its declared path, then resolve and write every
relocation instruction, then trigger the download under
`` `${addonName}.mcaddon` `` (no sanitization on this path). -/
def downloadAddon (openZip : FileObj → Except Unit (List ZipEntry)) (addonName : String)
    (files : List GeneratedFile) (uploadedFiles : List UploadedFile)
    (assetMappings : List AssetMapping) : AddonOut :=
  let zip0 := files.foldl (fun z f => zupsert z f.path (ZContent.text f.content)) []
  let st := assetMappings.foldl (applyMapping openZip uploadedFiles) (zip0, [])
  ⟨st.1, st.2, addonName ++ ".mcaddon"⟩

/-- The character class kept by `addonName.replace(/[^a-zA-Z0-9_ -]/g, '')`. -/
def allowedFilenameChar (c : Char) : Bool :=
  ('a' ≤ c && c ≤ 'z') || ('A' ≤ c && c ≤ 'Z') || ('0' ≤ c && c ≤ '9')
    || c == '_' || c == ' ' || c == '-'

/-- JS `String.prototype.trim`: drop leading and trailing whitespace. -/
def jsTrim (s : String) : String :=
  String.mk (((s.data.dropWhile Char.isWhitespace).reverse.dropWhile Char.isWhitespace).reverse)

/-- `addonName.replace(/[^a-zA-Z0-9_ -]/g, '').trim() || 'addon'`
(line 130). -/
def sanitizeStem (addonName : String) : String :=
  let stripped := jsTrim (String.mk (addonName.data.filter allowedFilenameChar))
  if stripped = "" then "addon" else stripped

/-- The output of `downloadMcaddonFromZips`. -/
structure ZipsOut where
  archive : List (String × ZContent)
  filename : String
deriving DecidableEq

/-- `downloadMcaddonFromZips` (lines 111-135): insert the RP and BP
containers (when present) at the root under their own filenames and
download under the sanitized name. -/
def downloadMcaddonFromZips (addonName : String) (rpFile bpFile : Option FileObj) : ZipsOut :=
  let z0 : List (String × ZContent) := []
  let z1 := match rpFile with
    | some f => zupsert z0 f.name (ZContent.bin f.bytes)
    | none => z0
  let z2 := match bpFile with
    | some f => zupsert z1 f.name (ZContent.bin f.bytes)
    | none => z1
  ⟨z2, sanitizeStem addonName ++ ".mcaddon"⟩

/-- Every string is a raw suffix of itself. -/
theorem jsEndsWith_self (s : String) : jsEndsWith s s = true := by
  simp [jsEndsWith, List.isSuffixOf_iff_suffix]

/-- An exact name match is in particular a suffix match. -/
theorem exact_implies_loose {uf : UploadedFile} {orig : String}
    (h : (uf.file.name == orig) = true) : jsEndsWith uf.file.name orig = true := by
  have he : uf.file.name = orig := beq_iff_eq.mp h
  rw [he]
  exact jsEndsWith_self orig

/-- Searching an exact name match among the suffix matches equals searching
it among all inputs (exact matches are suffix matches). -/
theorem find?_exact_filter_loose (ufs : List UploadedFile) (orig : String) :
    (ufs.filter (fun uf => jsEndsWith uf.file.name orig)).find?
        (fun uf => uf.file.name == orig)
      = ufs.find? (fun uf => uf.file.name == orig) := by
  induction ufs with
  | nil => rfl
  | cons a l ih =>
    by_cases hl : jsEndsWith a.file.name orig = true
    · simp only [List.filter_cons, hl, if_true, List.find?_cons]
      cases he : (a.file.name == orig) with
      | true => rfl
      | false => exact ih
    · have he : (a.file.name == orig) = false := by
        rcases Bool.eq_false_or_eq_true (a.file.name == orig) with h | h
        · exact absurd (exact_implies_loose h) hl
        · exact h
      simp only [List.filter_cons, hl, if_false, Bool.false_eq_true, List.find?_cons, he, ih]

/-- `find?` returns the head of the filtered list. -/
theorem find?_eq_head?_filter {α : Type} (p : α → Bool) (l : List α) :
    l.find? p = (l.filter p).head? := by
  induction l with
  | nil => rfl
  | cons a l ih =>
    simp only [List.find?_cons, List.filter_cons]
    cases h : p a with
    | true => rfl
    | false => exact ih

/-- Modelled from the spec (§4.5 matching strategy): the resolution order
as the specification words it — (1) an exact loose name match is
preferred; (2) otherwise the first loose input whose name ends with
`originalPath`; (3) otherwise the first matching entry inside an uploaded
container; (4) otherwise not-found. -/
def resolveSpecOrder (openZip : FileObj → Except Unit (List ZipEntry))
    (uploadedFiles : List UploadedFile) (originalPath : String) : Option ZContent :=
  match uploadedFiles.find? (fun uf => uf.file.name == originalPath) with
  | some uf => some (.bin uf.file.bytes)
  | none =>
    match uploadedFiles.find? (fun uf => jsEndsWith uf.file.name originalPath) with
    | some uf => some (.bin uf.file.bytes)
    | none =>
      match searchZips openZip uploadedFiles originalPath with
      | some bs => some (.bin bs)
      | none => none

/-- **C6** — The resolver follows the spec's order: exact loose match
preferred, else first suffix-matching loose input, else the container
fallback, else not-found; and the ambiguity warning fires exactly when
there is no exact match and at least two loose inputs suffix-match (it is
a warning, never a failure: a write is still produced in that case). -/
theorem resolver_follows_spec_order (openZip : FileObj → Except Unit (List ZipEntry))
    (ufs : List UploadedFile) (m : AssetMapping) :
    (resolveMapping openZip ufs m).write = resolveSpecOrder openZip ufs m.originalPath
    ∧ ((resolveMapping openZip ufs m).warnAmbiguous = true ↔
        ufs.find? (fun uf => uf.file.name == m.originalPath) = none
        ∧ 2 ≤ (ufs.filter (fun uf => jsEndsWith uf.file.name m.originalPath)).length)
    ∧ ((resolveMapping openZip ufs m).warnAmbiguous = true →
        (resolveMapping openZip ufs m).write ≠ none) := by
  have hexact := find?_exact_filter_loose ufs m.originalPath
  have hloose := find?_eq_head?_filter (fun uf => jsEndsWith uf.file.name m.originalPath) ufs
  cases hlm : ufs.filter (fun uf => jsEndsWith uf.file.name m.originalPath) with
  | nil =>
    rw [hlm] at hexact hloose
    simp only [List.find?_nil] at hexact
    simp only [List.head?_nil] at hloose
    refine ⟨?_, ?_, ?_⟩
    · simp only [resolveMapping, hlm]
      unfold resolveSpecOrder
      rw [← hexact, hloose]
      cases searchZips openZip ufs m.originalPath <;> rfl
    · simp only [resolveMapping, hlm]
      cases searchZips openZip ufs m.originalPath <;> simp
    · simp only [resolveMapping, hlm]
      cases searchZips openZip ufs m.originalPath <;> simp
  | cons first others =>
    rw [hlm] at hexact hloose
    refine ⟨?_, ?_, ?_⟩
    · simp only [resolveMapping, hlm]
      unfold resolveSpecOrder
      rw [← hexact]
      cases hfe : (first :: others).find? (fun uf => uf.file.name == m.originalPath) with
      | some e => rfl
      | none => rw [hloose]; rfl
    · simp only [resolveMapping, hlm]
      rw [← hexact]
      cases hfe : (first :: others).find? (fun uf => uf.file.name == m.originalPath) with
      | some e => simp
      | none =>
        cases others with
        | nil => simp
        | cons b bs => simp [List.length_cons]
    · simp only [resolveMapping, hlm]
      cases hfe : (first :: others).find? (fun uf => uf.file.name == m.originalPath) with
      | some e => simp
      | none => simp

/-- Reading after a write-or-replace: the written path returns the new
content, others are unchanged. -/
theorem lookupA_zupsert (z : List (String × ZContent)) (k p : String) (c : ZContent) :
    lookupA (zupsert z k c) p = if k == p then some c else lookupA z p := by
  induction z with
  | nil => rfl
  | cons hd tl ih =>
    obtain ⟨q, v⟩ := hd
    by_cases hq : (q == k) = true
    · have hqe : q = k := beq_iff_eq.mp hq
      subst hqe
      simp only [zupsert, if_pos hq]
      by_cases hp : (q == p) = true <;> simp [lookupA, hp]
    · have hq' : (q == k) = false := by
        rcases Bool.eq_false_or_eq_true (q == k) with h | h
        · exact absurd h hq
        · exact h
      simp only [zupsert, hq', Bool.false_eq_true, if_false]
      by_cases hqp : (q == p) = true
      · have hqpe : q = p := beq_iff_eq.mp hqp
        subst hqpe
        have hkp : (k == q) = false := by
          rcases Bool.eq_false_or_eq_true (k == q) with h | h
          · rw [beq_iff_eq.mp h] at hq'
            simp at hq'
          · exact h
        simp [lookupA, hqp, hkp]
      · have hqp' : (q == p) = false := by
          rcases Bool.eq_false_or_eq_true (q == p) with h | h
          · exact absurd h hqp
          · exact h
        simp [lookupA, hqp', ih]

/-- The content the write sequence leaves at a path: the latest write
wins. -/
def lastWriteAt (writes : List (String × ZContent)) (p : String) : Option ZContent :=
  match writes with
  | [] => none
  | (k, c) :: rest =>
    match lastWriteAt rest p with
    | some c' => some c'
    | none => if k == p then some c else none

/-- Folding a write sequence into an archive realizes last-write-wins
on top of the initial archive. -/
theorem lookupA_foldl_zupsert (writes : List (String × ZContent))
    (init : List (String × ZContent)) (p : String) :
    lookupA (writes.foldl (fun z w => zupsert z w.1 w.2) init) p
      = match lastWriteAt writes p with
        | some c => some c
        | none => lookupA init p := by
  induction writes generalizing init with
  | nil => rfl
  | cons w rest ih =>
    obtain ⟨k, c⟩ := w
    rw [List.foldl_cons, ih]
    cases h : lastWriteAt rest p with
    | some c' => simp [lastWriteAt, h]
    | none =>
      simp only [lastWriteAt, h, lookupA_zupsert]
      by_cases hk : (k == p) = true <;> simp [hk]

/-- The paths of the archive entries. -/
def archiveKeys (z : List (String × ZContent)) : List String := z.map Prod.fst

/-- Membership in the keys after a write. -/
theorem mem_archiveKeys_zupsert (z : List (String × ZContent)) (k p : String) (c : ZContent) :
    p ∈ archiveKeys (zupsert z k c) ↔ p ∈ archiveKeys z ∨ p = k := by
  induction z with
  | nil => simp [zupsert, archiveKeys]
  | cons hd tl ih =>
    obtain ⟨q, v⟩ := hd
    by_cases hq : (q == k) = true
    · have hqe : q = k := beq_iff_eq.mp hq
      subst hqe
      simp only [zupsert, if_pos hq, archiveKeys, List.map_cons, List.mem_cons]
      tauto
    · have hq' : (q == k) = false := by
        rcases Bool.eq_false_or_eq_true (q == k) with h | h
        · exact absurd h hq
        · exact h
      simp only [zupsert, hq', Bool.false_eq_true, if_false, archiveKeys, List.map_cons,
        List.mem_cons] at ih ⊢
      rw [ih]
      tauto

/-- A write preserves distinctness of the archive paths. -/
theorem nodup_archiveKeys_zupsert (z : List (String × ZContent)) (k : String) (c : ZContent)
    (h : (archiveKeys z).Nodup) : (archiveKeys (zupsert z k c)).Nodup := by
  induction z with
  | nil => simp [zupsert, archiveKeys]
  | cons hd tl ih =>
    obtain ⟨q, v⟩ := hd
    simp only [archiveKeys, List.map_cons, List.nodup_cons] at h
    by_cases hq : (q == k) = true
    · have hqe : q = k := beq_iff_eq.mp hq
      subst hqe
      simp only [zupsert, if_pos hq, archiveKeys, List.map_cons, List.nodup_cons]
      exact h
    · have hq' : (q == k) = false := by
        rcases Bool.eq_false_or_eq_true (q == k) with h' | h'
        · exact absurd h' hq
        · exact h'
      simp only [zupsert, hq', Bool.false_eq_true, if_false, archiveKeys, List.map_cons,
        List.nodup_cons]
      refine ⟨?_, ih h.2⟩
      intro hmem
      rcases (mem_archiveKeys_zupsert tl k q c).mp hmem with hm | hm
      · exact h.1 hm
      · rw [hm] at hq
        simp at hq

/-- Folding writes preserves distinctness of the archive paths. -/
theorem nodup_archiveKeys_foldl (writes : List (String × ZContent))
    (init : List (String × ZContent)) (h : (archiveKeys init).Nodup) :
    (archiveKeys (writes.foldl (fun z w => zupsert z w.1 w.2) init)).Nodup := by
  induction writes generalizing init with
  | nil => exact h
  | cons w rest ih =>
    rw [List.foldl_cons]
    exact ih _ (nodup_archiveKeys_zupsert _ _ _ h)

/-- The writes the generated files contribute, in order (lines 32-34). -/
def genWrites (files : List GeneratedFile) : List (String × ZContent) :=
  files.map (fun f => (f.path, ZContent.text f.content))

/-- The writes the resolved relocation instructions contribute, in order
(unresolved instructions contribute nothing). -/
def mapWrites (openZip : FileObj → Except Unit (List ZipEntry)) (ufs : List UploadedFile)
    (ms : List AssetMapping) : List (String × ZContent) :=
  ms.filterMap (fun m => ((resolveMapping openZip ufs m).write).map (fun c => (m.newPath, c)))

/-- All archive writes of `downloadAddon` in application order:
generated files first, then resolved relocations. -/
def addonWrites (openZip : FileObj → Except Unit (List ZipEntry)) (ufs : List UploadedFile)
    (files : List GeneratedFile) (ms : List AssetMapping) : List (String × ZContent) :=
  genWrites files ++ mapWrites openZip ufs ms

/-- The warnings one relocation instruction contributes. -/
def mappingWarnings (openZip : FileObj → Except Unit (List ZipEntry)) (ufs : List UploadedFile)
    (m : AssetMapping) : List Warning :=
  (if (resolveMapping openZip ufs m).warnAmbiguous then [Warning.ambiguous m.originalPath] else [])
    ++ (match (resolveMapping openZip ufs m).write with
        | some _ => []
        | none => [Warning.notFound m.originalPath m.newPath])

/-- The mapping loop is the fold of the resolved writes plus the
concatenated warnings. -/
theorem applyMapping_foldl (openZip : FileObj → Except Unit (List ZipEntry))
    (ufs : List UploadedFile) (ms : List AssetMapping)
    (z0 : List (String × ZContent)) (ws0 : List Warning) :
    ms.foldl (applyMapping openZip ufs) (z0, ws0)
      = ((mapWrites openZip ufs ms).foldl (fun z w => zupsert z w.1 w.2) z0,
         ws0 ++ ms.flatMap (mappingWarnings openZip ufs)) := by
  induction ms generalizing z0 ws0 with
  | nil => simp [mapWrites]
  | cons m ms ih =>
    rw [List.foldl_cons]
    cases hw : (resolveMapping openZip ufs m).write with
    | some c =>
      have hstep : applyMapping openZip ufs (z0, ws0) m
          = (zupsert z0 m.newPath c,
             ws0 ++ (if (resolveMapping openZip ufs m).warnAmbiguous then
               [Warning.ambiguous m.originalPath] else [])) := by
        simp [applyMapping, hw]
      rw [hstep, ih]
      simp [mapWrites, mappingWarnings, hw, List.filterMap_cons, List.flatMap_cons,
        List.append_assoc]
    | none =>
      have hstep : applyMapping openZip ufs (z0, ws0) m
          = (z0, (ws0 ++ (if (resolveMapping openZip ufs m).warnAmbiguous then
               [Warning.ambiguous m.originalPath] else []))
              ++ [Warning.notFound m.originalPath m.newPath]) := by
        simp [applyMapping, hw]
      rw [hstep, ih]
      simp [mapWrites, mappingWarnings, hw, List.filterMap_cons, List.flatMap_cons,
        List.append_assoc]

/-- `downloadAddon`, decomposed: the archive is the fold of all writes in
application order, the warnings are the per-mapping warnings in order, and
the filename is the raw addon name with the extension. -/
theorem downloadAddon_characterisation (openZip : FileObj → Except Unit (List ZipEntry))
    (addonName : String) (files : List GeneratedFile) (ufs : List UploadedFile)
    (ms : List AssetMapping) :
    downloadAddon openZip addonName files ufs ms
      = ⟨(addonWrites openZip ufs files ms).foldl (fun z w => zupsert z w.1 w.2) [],
         ms.flatMap (mappingWarnings openZip ufs),
         addonName ++ ".mcaddon"⟩ := by
  simp only [downloadAddon]
  rw [applyMapping_foldl]
  simp only [addonWrites, genWrites]
  rw [List.foldl_append, List.foldl_map]
  simp

/-- `lastWriteAt` over concatenated write sequences: the later sequence
takes precedence. -/
theorem lastWriteAt_append (w1 w2 : List (String × ZContent)) (p : String) :
    lastWriteAt (w1 ++ w2) p
      = match lastWriteAt w2 p with
        | some c => some c
        | none => lastWriteAt w1 p := by
  induction w1 with
  | nil =>
    simp only [List.nil_append]
    cases h : lastWriteAt w2 p <;> simp [lastWriteAt, h]
  | cons w rest ih =>
    obtain ⟨k, c⟩ := w
    simp only [List.cons_append, lastWriteAt, List.append_eq]
    rw [ih]
    cases h2 : lastWriteAt w2 p <;> cases hr : lastWriteAt rest p <;> simp [h2, hr]

/-- Every generated file leaves some write at its path. -/
theorem lastWriteAt_genWrites_isSome {files : List GeneratedFile} {f : GeneratedFile}
    (hf : f ∈ files) : (lastWriteAt (genWrites files) f.path).isSome = true := by
  induction files with
  | nil => cases hf
  | cons g rest ih =>
    simp only [genWrites, List.map_cons, lastWriteAt]
    cases hl : lastWriteAt (List.map (fun f => (f.path, ZContent.text f.content)) rest)
        f.path with
    | some c => rfl
    | none =>
      rcases List.mem_cons.mp hf with h | h
      · subst h
        simp
      · have hs := ih h
        simp only [genWrites] at hs
        rw [hl] at hs
        simp at hs

/-- A zip-less collaborator: every container opens to no entries. -/
def ozEmpty : FileObj → Except Unit (List ZipEntry) := fun _ => .ok []

/-- A collaborator serving one container with one nested entry. -/
def ozPack : FileObj → Except Unit (List ZipEntry) :=
  fun f => if f.name = "pack.zip" then .ok [⟨"a/sword.png", false, [9]⟩] else .error ()

/-- Witness for C6 at a concrete ambiguous pool. -/
theorem resolver_follows_spec_order_witness :
    (resolveMapping ozEmpty [⟨⟨"a/i.png", [1]⟩, .asset⟩, ⟨⟨"b/i.png", [2]⟩, .asset⟩]
        ⟨"i.png", "np"⟩).write
      = resolveSpecOrder ozEmpty [⟨⟨"a/i.png", [1]⟩, .asset⟩, ⟨⟨"b/i.png", [2]⟩, .asset⟩] "i.png"
    ∧ (resolveMapping ozEmpty [⟨⟨"a/i.png", [1]⟩, .asset⟩, ⟨⟨"b/i.png", [2]⟩, .asset⟩]
        ⟨"i.png", "np"⟩).warnAmbiguous = true := by
  have h := resolver_follows_spec_order ozEmpty
    [⟨⟨"a/i.png", [1]⟩, .asset⟩, ⟨⟨"b/i.png", [2]⟩, .asset⟩] ⟨"i.png", "np"⟩
  exact ⟨h.1, h.2.1.mpr ⟨by decide, by decide⟩⟩

/-- **C8** — The archive paths are distinct (exactly one entry per path);
the entry at any path is the last write in the fixed application order —
generated files first, then resolved relocations — and in particular
whenever a resolved relocation writes a path, its content wins there over
any generated file. -/
theorem archive_collision_last_write_wins (openZip : FileObj → Except Unit (List ZipEntry))
    (addonName : String) (files : List GeneratedFile) (ufs : List UploadedFile)
    (ms : List AssetMapping) :
    (archiveKeys (downloadAddon openZip addonName files ufs ms).archive).Nodup
    ∧ (∀ p, lookupA (downloadAddon openZip addonName files ufs ms).archive p
        = lastWriteAt (addonWrites openZip ufs files ms) p)
    ∧ (∀ p c, lastWriteAt (mapWrites openZip ufs ms) p = some c →
        lookupA (downloadAddon openZip addonName files ufs ms).archive p = some c) := by
  have hlook : ∀ p, lookupA (downloadAddon openZip addonName files ufs ms).archive p
      = lastWriteAt (addonWrites openZip ufs files ms) p := by
    intro p
    rw [downloadAddon_characterisation]
    rw [lookupA_foldl_zupsert]
    cases lastWriteAt (addonWrites openZip ufs files ms) p <;> rfl
  refine ⟨?_, hlook, ?_⟩
  · rw [downloadAddon_characterisation]
    exact nodup_archiveKeys_foldl _ _ (by simp [archiveKeys])
  · intro p c h
    rw [hlook p]
    unfold addonWrites
    rw [lastWriteAt_append, h]

/-- Witness for C8: a relocated asset overwrites the generated file that
declared the same path. -/
theorem archive_collision_last_write_wins_witness :
    lookupA (downloadAddon ozEmpty "n" [⟨"p", "A"⟩] [⟨⟨"x.png", [1, 2, 3]⟩, .asset⟩]
        [⟨"x.png", "p"⟩]).archive "p" = some (.bin [1, 2, 3]) :=
  (archive_collision_last_write_wins ozEmpty "n" [⟨"p", "A"⟩]
    [⟨⟨"x.png", [1, 2, 3]⟩, .asset⟩] [⟨"x.png", "p"⟩]).2.2 "p" (.bin [1, 2, 3]) (by decide)

/-- Counterexample to C7 as stated: with generated file `p ↦ "A"`, an
unresolvable instruction (`zzz`) and a resolvable one relocating
`x.png` to `p`, assembly completes without error and warns about `zzz`, but the
archive entry at `p` holds the relocated bytes, not the generated text —
so the archive does not contain every `GeneratedFile` verbatim. -/
theorem unresolved_relocation_counterexample :
    (resolveMapping ozEmpty [⟨⟨"x.png", [1, 2, 3]⟩, .asset⟩] ⟨"zzz", "q"⟩).write = none
    ∧ (downloadAddon ozEmpty "n" [⟨"p", "A"⟩] [⟨⟨"x.png", [1, 2, 3]⟩, .asset⟩]
        [⟨"zzz", "q"⟩, ⟨"x.png", "p"⟩]).warnings = [.notFound "zzz" "q"]
    ∧ lookupA (downloadAddon ozEmpty "n" [⟨"p", "A"⟩] [⟨⟨"x.png", [1, 2, 3]⟩, .asset⟩]
        [⟨"zzz", "q"⟩, ⟨"x.png", "p"⟩]).archive "p" = some (.bin [1, 2, 3])
    ∧ some (ZContent.bin [1, 2, 3]) ≠ some (ZContent.text "A") := by
  exact ⟨by decide, by decide, by decide, by decide⟩

/-- **C7 (amended)** — Archive assembly is total and an unresolvable
relocation is non-fatal: it contributes no write (removing it leaves the
archive unchanged), it records a not-found warning, every generated file
still has an entry at its declared path, and that entry is the file's text
verbatim unless a later generated file or a resolved relocation writes the
same path. -/
theorem unresolved_relocation_skipped_nonfatal
    (openZip : FileObj → Except Unit (List ZipEntry)) (addonName : String)
    (files : List GeneratedFile) (ufs : List UploadedFile)
    (ms1 ms2 : List AssetMapping) (m : AssetMapping)
    (hm : (resolveMapping openZip ufs m).write = none) :
    Warning.notFound m.originalPath m.newPath
        ∈ (downloadAddon openZip addonName files ufs (ms1 ++ m :: ms2)).warnings
    ∧ (downloadAddon openZip addonName files ufs (ms1 ++ m :: ms2)).archive
        = (downloadAddon openZip addonName files ufs (ms1 ++ ms2)).archive
    ∧ (∀ f ∈ files,
        (lookupA (downloadAddon openZip addonName files ufs (ms1 ++ m :: ms2)).archive
          f.path).isSome = true)
    ∧ (∀ f ∈ files,
        lastWriteAt (genWrites files) f.path = some (.text f.content) →
        lastWriteAt (mapWrites openZip ufs (ms1 ++ m :: ms2)) f.path = none →
        lookupA (downloadAddon openZip addonName files ufs (ms1 ++ m :: ms2)).archive
          f.path = some (.text f.content)) := by
  have hmw : mapWrites openZip ufs (ms1 ++ m :: ms2) = mapWrites openZip ufs (ms1 ++ ms2) := by
    unfold mapWrites
    rw [List.filterMap_append, List.filterMap_append, List.filterMap_cons]
    simp [hm]
  have hlook : ∀ p, lookupA (downloadAddon openZip addonName files ufs (ms1 ++ m :: ms2)).archive p
      = lastWriteAt (addonWrites openZip ufs files (ms1 ++ m :: ms2)) p :=
    fun p => (archive_collision_last_write_wins openZip addonName files ufs (ms1 ++ m :: ms2)).2.1 p
  refine ⟨?_, ?_, ?_, ?_⟩
  · rw [downloadAddon_characterisation]
    show Warning.notFound m.originalPath m.newPath
      ∈ (ms1 ++ m :: ms2).flatMap (mappingWarnings openZip ufs)
    rw [List.mem_flatMap]
    refine ⟨m, by simp, ?_⟩
    unfold mappingWarnings
    rw [hm]
    simp
  · rw [downloadAddon_characterisation, downloadAddon_characterisation]
    simp only [addonWrites, hmw]
  · intro f hf
    rw [hlook f.path]
    unfold addonWrites
    rw [lastWriteAt_append]
    cases hmwv : lastWriteAt (mapWrites openZip ufs (ms1 ++ m :: ms2)) f.path with
    | some c => rfl
    | none => exact lastWriteAt_genWrites_isSome hf
  · intro f hf hgen hmap
    rw [hlook f.path]
    unfold addonWrites
    rw [lastWriteAt_append, hmap, hgen]

/-- Witness for C7 (amended) at a concrete unresolvable instruction. -/
theorem unresolved_relocation_skipped_nonfatal_witness :
    Warning.notFound "zzz" "q"
        ∈ (downloadAddon ozEmpty "n" [⟨"p", "A"⟩] [] [⟨"zzz", "q"⟩]).warnings
    ∧ lookupA (downloadAddon ozEmpty "n" [⟨"p", "A"⟩] [] [⟨"zzz", "q"⟩]).archive "p"
        = some (.text "A") := by
  have h := unresolved_relocation_skipped_nonfatal ozEmpty "n" [⟨"p", "A"⟩] [] [] []
    ⟨"zzz", "q"⟩ (by decide)
  exact ⟨h.1, h.2.2.2 ⟨"p", "A"⟩ (by decide) (by decide) (by decide)⟩

/-- Counterexample to C9 as stated: `downloadAddon` performs no filename
sanitization — the user-supplied name is used raw, so a name with a
character outside `[A-Za-z0-9_ -]` survives into the download filename. -/
theorem downloadAddon_filename_unsanitized :
    (downloadAddon ozEmpty "a!b" [] [] []).filename = "a!b.mcaddon"
    ∧ "a!b.mcaddon" ≠ "ab.mcaddon" := by
  exact ⟨rfl, by decide⟩

/-- **C9 (amended)** — Only `downloadMcaddonFromZips` sanitizes the
filename: characters outside `[A-Za-z0-9_ -]` are stripped, the result is
trimmed of surrounding whitespace, an empty result falls back to `addon`,
and `.mcaddon` is appended — so the stem is `addon` or a nonempty string
of allowed characters. `downloadAddon` uses the raw user-supplied name
with `.mcaddon` appended, with no sanitization. -/
theorem filename_sanitization_split (addonName : String) (rpFile bpFile : Option FileObj)
    (openZip : FileObj → Except Unit (List ZipEntry)) (files : List GeneratedFile)
    (ufs : List UploadedFile) (ms : List AssetMapping) :
    (downloadMcaddonFromZips addonName rpFile bpFile).filename
      = sanitizeStem addonName ++ ".mcaddon"
    ∧ (sanitizeStem addonName = "addon"
       ∨ (sanitizeStem addonName ≠ ""
          ∧ ∀ c ∈ (sanitizeStem addonName).data, allowedFilenameChar c = true))
    ∧ (downloadAddon openZip addonName files ufs ms).filename = addonName ++ ".mcaddon" := by
  refine ⟨rfl, ?_, rfl⟩
  unfold sanitizeStem
  by_cases h : jsTrim (String.mk (addonName.data.filter allowedFilenameChar)) = ""
  · rw [if_pos h]
    exact Or.inl rfl
  · rw [if_neg h]
    refine Or.inr ⟨h, ?_⟩
    intro c hc
    unfold jsTrim at hc
    have h1 : c ∈ ((String.mk (addonName.data.filter allowedFilenameChar)).data.dropWhile
        Char.isWhitespace).reverse.dropWhile Char.isWhitespace := by
      simpa using List.mem_reverse.mp hc
    have h2 : c ∈ ((String.mk (addonName.data.filter allowedFilenameChar)).data.dropWhile
        Char.isWhitespace).reverse :=
      (List.dropWhile_sublist _).mem h1
    have h3 : c ∈ (String.mk (addonName.data.filter allowedFilenameChar)).data.dropWhile
        Char.isWhitespace := List.mem_reverse.mp h2
    have h4 : c ∈ (String.mk (addonName.data.filter allowedFilenameChar)).data :=
      (List.dropWhile_sublist _).mem h3
    have h5 : c ∈ addonName.data.filter allowedFilenameChar := h4
    exact (List.mem_filter.mp h5).2

/-- Witness for C9 (amended): `!` is stripped by the zips path and kept by
the addon path. -/
theorem filename_sanitization_split_witness :
    (downloadMcaddonFromZips "a!b" none none).filename = "ab.mcaddon"
    ∧ (downloadAddon ozEmpty "a!b" [] [] []).filename = "a!b.mcaddon"
    ∧ allowedFilenameChar 'a' = true := by
  have h := filename_sanitization_split "a!b" none none ozEmpty [] [] []
  refine ⟨h.1.trans (by decide), h.2.2, ?_⟩
  have h2 := h.2.1.resolve_left (by decide)
  exact h2.2 'a' (by decide)

/-- **C10** — The resolver's match is a raw string suffix with no
path-boundary requirement: any uploaded input whose name ends with
`originalPath` as a plain character sequence passes the loose-match
filter, and the resolver then always produces a write. -/
theorem raw_suffix_match (openZip : FileObj → Except Unit (List ZipEntry))
    (ufs : List UploadedFile) (m : AssetMapping) (uf : UploadedFile)
    (hmem : uf ∈ ufs) (pre : List Char)
    (hsuf : uf.file.name.data = pre ++ m.originalPath.data) :
    jsEndsWith uf.file.name m.originalPath = true
    ∧ ((resolveMapping openZip ufs m).write).isSome = true := by
  have hends : jsEndsWith uf.file.name m.originalPath = true := by
    simp only [jsEndsWith, List.isSuffixOf_iff_suffix]
    exact ⟨pre, hsuf.symm⟩
  refine ⟨hends, ?_⟩
  have hmemf : uf ∈ ufs.filter (fun uf => jsEndsWith uf.file.name m.originalPath) :=
    List.mem_filter.mpr ⟨hmem, hends⟩
  cases hlm : ufs.filter (fun uf => jsEndsWith uf.file.name m.originalPath) with
  | nil => rw [hlm] at hmemf; cases hmemf
  | cons a l =>
    simp only [resolveMapping, hlm]
    cases (a :: l).find? (fun uf => uf.file.name == m.originalPath) <;> rfl

/-- Witness for C10: `sword.png` suffix-matches `word.png` across a
non-boundary position, as a loose input and as a container entry. -/
theorem raw_suffix_match_witness :
    ((resolveMapping ozEmpty [⟨⟨"sword.png", [7]⟩, .asset⟩] ⟨"word.png", "np"⟩).write).isSome
      = true
    ∧ (resolveMapping ozEmpty [⟨⟨"sword.png", [7]⟩, .asset⟩] ⟨"word.png", "np"⟩).write
      = some (.bin [7])
    ∧ (resolveMapping ozPack [⟨⟨"pack.zip", []⟩, .addon_file⟩] ⟨"word.png", "np"⟩).write
      = some (.bin [9]) := by
  refine ⟨?_, by decide, by decide⟩
  exact (raw_suffix_match ozEmpty [⟨⟨"sword.png", [7]⟩, .asset⟩] ⟨"word.png", "np"⟩
    ⟨⟨"sword.png", [7]⟩, .asset⟩ (by decide) ['s'] (by decide)).2
